import Mathlib

/-!
Shallow embedding of the LawDeepResearch orchestration engine
(multi_agent_supervisor.py, research_agent.py, utils.py) and proofs of the
specified properties of its supervisor loop, worker loop and aggregation.

Messages, tool calls and worker results are translated from the source;
the LLM "reasoning step" and the external search client are parameters
(functions supplied to the embedded nodes), since their outputs are not
program code.  LangGraph state-channel reducers live in the repository's
state_multi_agent_supervisor.py / state_research.py modules, which are not
in the source tree; their append semantics is modelled from the spec
("notes and rawNotes are append-only", messages accumulate).
-/

namespace LawDeepResearch

/-- A tool call issued by an LLM response.  In the source this is a dict
with keys "name", "args", "id"; the only argument keys ever read are
ConductResearch's "research_topic" and think_tool's "reflection", so the
args mapping is embedded as those two fields. -/
structure ToolCall where
  name : String
  researchTopic : String := ""
  reflection : String := ""
  id : String
deriving Repr, DecidableEq

/-- Messages of a LangChain conversation trace, as used by the engine:
human input, system prompt, AI responses (content plus tool calls) and
tool results (content, tool name, tool_call_id). -/
inductive Message
  | human (content : String)
  | system (content : String)
  | ai (content : String) (toolCalls : List ToolCall)
  | tool (content : String) (name : String) (toolCallId : String)
deriving Repr, DecidableEq

/-- `.tool_calls` attribute: AI messages carry their tool calls, other
message types have none. -/
def Message.toolCalls : Message → List ToolCall
  | .ai _ tcs => tcs
  | _ => []

/-- Content of a message, as `str(m.content)` sees it. -/
def Message.content : Message → String
  | .human c => c
  | .system c => c
  | .ai c _ => c
  | .tool c _ _ => c

/-- `filter_messages(messages, include_types="tool")` followed by taking
`.content`: multi_agent_supervisor.get_notes_from_tool_calls. -/
def get_notes_from_tool_calls (messages : List Message) : List String :=
  messages.filterMap fun m =>
    match m with
    | .tool c _ _ => some c
    | _ => none

/-- Python str.join with separator "\n", as used for raw-note
aggregation ("\n".join(...)). -/
def joinLines : List String → String
  | [] => ""
  | [a] => a
  | a :: b :: rest => a ++ "\n" ++ joinLines (b :: rest)

/-- The mapping a researcher sub-agent run returns to the supervisor
(ResearcherOutputState).  `result.get(key, default)` is embedded by
making each key optional. -/
structure ResearchResult where
  compressed_research : Option String := none
  raw_notes : Option (List String) := none
deriving Repr, DecidableEq, Inhabited

/-- utils.think_tool: returns the reflection confirmation string. -/
def think_tool (reflection : String) : String :=
  "Reflection recorded: " ++ reflection

/-- multi_agent_supervisor.max_researcher_iterations. -/
def max_researcher_iterations : Nat := 6

/-- multi_agent_supervisor.max_concurrent_researchers (used only inside
the lead-researcher prompt text). -/
def max_concurrent_researchers : Nat := 3

/-- SupervisorState.  Modelled from the spec: the state channels of
state_multi_agent_supervisor.py are not in the source tree; per the spec
supervisor_messages, notes and raw_notes are append-only accumulators
and research_iterations / research_brief are plain overwritten values. -/
structure SupervisorState where
  supervisor_messages : List Message := []
  research_iterations : Nat := 0
  notes : List String := []
  raw_notes : List String := []
  research_brief : String := ""
deriving Repr, DecidableEq

/-- The `supervisor` node: the reasoning step's response (a parameter
here) is appended to supervisor_messages and research_iterations is
incremented by one; control always goes to supervisor_tools. -/
def supervisor (response : Message) (s : SupervisorState) : SupervisorState :=
  { s with
    supervisor_messages := s.supervisor_messages ++ [response]
    research_iterations := s.research_iterations + 1 }

/-- One worker's asynchronous outcome: a normal result, or an unhandled
exception carried as `Except.error`. -/
abbrev WorkerOutcome := Except String ResearchResult

/-- Completion events of one `asyncio.gather` round: the workers finish
in some arbitrary order `sched` (a permutation of the coroutine indices),
and each finishing index `i` yields the outcome of coroutine `i`. -/
def gatherEvents (outs : List WorkerOutcome) (sched : List Nat) :
    List (Nat × WorkerOutcome) :=
  sched.filterMap fun i => (outs[i]?).map fun o => (i, o)

/-- The first exception to complete, if any: with the default
`return_exceptions=False`, `asyncio.gather` re-raises the first exception
among its awaitables. -/
def firstGatherError (events : List (Nat × WorkerOutcome)) : Option String :=
  events.findSome? fun e =>
    match e.2 with
    | .error msg => some msg
    | .ok _ => none

/-- Assembly of gather's return list: slot `j` of the result is the
outcome completed for coroutine `j`, so the returned list is in
coroutine order no matter in which order completions arrived.  `none`
when some slot never completed (unreachable for a real schedule). -/
def collectSlots (events : List (Nat × WorkerOutcome)) : List Nat → Option (List ResearchResult)
  | [] => some []
  | j :: js =>
    match events.find? (fun e => e.1 == j), collectSlots events js with
    | some (_, .ok r), some rest => some (r :: rest)
    | _, _ => none

/-- `await asyncio.gather(*coros)`: raises the first exception if any
worker failed, otherwise returns all results in coroutine order. -/
def gatherOutcome (outs : List WorkerOutcome) (sched : List Nat) :
    Except String (List ResearchResult) :=
  let events := gatherEvents outs sched
  match firstGatherError events with
  | some msg => .error msg
  | none =>
    match collectSlots events (List.range outs.length) with
    | some results => .ok results
    | none => .error "gather incomplete"

/-- The END-branch state update of supervisor_tools:
`{"notes": get_notes_from_tool_calls(supervisor_messages),
"research_brief": state.get("research_brief", "")}` applied through the
append reducer on notes and overwrite on research_brief. -/
def endUpdate (s : SupervisorState) : SupervisorState :=
  { s with notes := s.notes ++ get_notes_from_tool_calls s.supervisor_messages }

/-- The `supervisor_tools` node.  `work i topic` is the researcher
sub-agent dispatched for the i-th ConductResearch call of this round
(researcher_agent.ainvoke), `sched` the completion order of the round's
workers.  Returns the updated state and whether control went to END. -/
def supervisor_tools (work : Nat → String → WorkerOutcome) (sched : List Nat)
    (s : SupervisorState) : SupervisorState × Bool :=
  let supervisorMessages := s.supervisor_messages
  let researchIterations := s.research_iterations
  let mostRecentMessage := supervisorMessages.getLastD (Message.ai "" [])
  let exceededIterations := researchIterations ≥ max_researcher_iterations
  let noToolCalls := mostRecentMessage.toolCalls.isEmpty
  let researchComplete :=
    mostRecentMessage.toolCalls.any fun tc => tc.name == "ResearchComplete"
  if exceededIterations || noToolCalls || researchComplete then
    (endUpdate s, true)
  else
    let thinkToolCalls :=
      mostRecentMessage.toolCalls.filter fun tc => tc.name == "think_tool"
    let conductResearchCalls :=
      mostRecentMessage.toolCalls.filter fun tc => tc.name == "ConductResearch"
    let thinkMessages := thinkToolCalls.map fun tc =>
      Message.tool (think_tool tc.reflection) tc.name tc.id
    let outs := conductResearchCalls.enum.map fun p => work p.1 p.2.researchTopic
    match gatherOutcome outs sched with
    | .error _ =>
      -- except Exception: print and fall through to the END branch
      (endUpdate s, true)
    | .ok toolResults =>
      let researchToolMessages := (toolResults.zip conductResearchCalls).map fun p =>
        Message.tool (p.1.compressed_research.getD "Error synthesizing research report")
          p.2.name p.2.id
      let toolMessages := thinkMessages ++ researchToolMessages
      let allRawNotes := toolResults.map fun r => joinLines (r.raw_notes.getD [])
      ({ s with
          supervisor_messages := s.supervisor_messages ++ toolMessages
          raw_notes := s.raw_notes ++ allRawNotes }, false)

/-- One supervisor round as driven from outside: the reasoning step's
decision for the `supervisor` node, the completion order of the round's
dispatched workers, and the behavior of the workers themselves. -/
structure Round where
  decision : Message
  sched : List Nat
  work : Nat → String → WorkerOutcome

/-- The supervisor graph loop: supervisor → supervisor_tools, looping
until supervisor_tools routes to END (or the supplied decision stream is
exhausted). -/
def runRounds : List Round → SupervisorState → SupervisorState
  | [], s => s
  | r :: rs, s =>
    match supervisor_tools r.work r.sched (supervisor r.decision s) with
    | (s2, true) => s2
    | (s2, false) => runRounds rs s2

/-- Every state the supervisor loop passes through (initial state, the
state after each `supervisor` node and after each `supervisor_tools`
node). -/
def runRoundsTrace : List Round → SupervisorState → List SupervisorState
  | [], s => [s]
  | r :: rs, s =>
    match supervisor_tools r.work r.sched (supervisor r.decision s) with
    | (s2, true) => [s, supervisor r.decision s, s2]
    | (s2, false) => s :: supervisor r.decision s :: runRoundsTrace rs s2

/-! ## Search tool pipeline (utils.py) -/

/-- One Tavily search result dict: the keys the pipeline reads. -/
structure SearchResult where
  url : String
  title : String
  content : String
  raw_content : Option String := none
deriving Repr, DecidableEq

/-- One Tavily API response: the "results" list. -/
structure SearchResponse where
  results : List SearchResult
deriving Repr, DecidableEq

/-- utils.tavily_search_multiple: sequential client searches; a raised
client error propagates (there is no try/except around the loop). -/
def tavily_search_multiple (clientSearch : String → Except String SearchResponse)
    (search_queries : List String) : Except String (List SearchResponse) :=
  search_queries.mapM clientSearch

/-- utils.deduplicate_search_results: insertion-ordered url → result
mapping, first occurrence wins. -/
def deduplicate_search_results (search_results : List SearchResponse) :
    List (String × SearchResult) :=
  search_results.foldl
    (fun acc response =>
      response.results.foldl
        (fun acc r => if acc.any (fun p => p.1 == r.url) then acc else acc ++ [(r.url, r)])
        acc)
    []

/-- utils.process_search_results: keep existing content when there is no
raw content (Python falsiness: missing or empty string), otherwise
summarize the raw content (the summarization model is a parameter). -/
def process_search_results (summarize : String → String)
    (unique_results : List (String × SearchResult)) : List (String × String × String) :=
  unique_results.map fun p =>
    (p.1, p.2.title,
      if (p.2.raw_content.getD "").isEmpty then p.2.content
      else summarize (p.2.raw_content.getD ""))

/-- utils.format_search_output: the fixed fallback line for an empty
result set, else the numbered source listing. -/
def format_search_output (summarized_results : List (String × String × String)) : String :=
  if summarized_results.isEmpty then
    "No valid search results found. Please try different search queries or use a different search API."
  else
    (summarized_results.enum.foldl
      (fun acc p =>
        acc ++ "\n\n--- SOURCE " ++ toString (p.1 + 1) ++ ": " ++ p.2.2.1 ++ " ---\n" ++
          "URL: " ++ p.2.1 ++ "\n\n" ++ "SUMMARY:\n" ++ p.2.2.2 ++ "\n\n" ++
          String.mk (List.replicate 80 (Char.ofNat 45)) ++ "\n")
      "Search results: \n\n")

/-- utils.tavily_search: search, deduplicate, summarize, format.  A
client-raised error (network failure) propagates out unhandled. -/
def tavily_search (clientSearch : String → Except String SearchResponse)
    (summarize : String → String) (query : String) : Except String String := do
  let search_results ← tavily_search_multiple clientSearch [query]
  let unique_results := deduplicate_search_results search_results
  let summarized_results := process_search_results summarize unique_results
  pure (format_search_output summarized_results)

/-! ## Research worker (research_agent.py) -/

/-- research_agent.should_continue: route on whether the last researcher
message made tool calls. -/
def should_continue (researcher_messages : List Message) : String :=
  if (researcher_messages.getLastD (Message.ai "" [])).toolCalls.isEmpty then
    "compress_research"
  else
    "tool_node"

/-- research_agent.tool_node: execute every tool call of the last LLM
response sequentially via the tool table (`invoke` embeds
tools_by_name[name].invoke(args)); any raised error propagates and
aborts the node.  On success, one ToolMessage per call, in call order. -/
def tool_node (invoke : ToolCall → Except String String)
    (researcher_messages : List Message) : Except String (List Message) := do
  let tool_calls := (researcher_messages.getLastD (Message.ai "" [])).toolCalls
  let observations ← tool_calls.mapM invoke
  pure ((observations.zip tool_calls).map fun p => Message.tool p.1 p.2.name p.2.id)

/-- `filter_messages(state["researcher_messages"], include_types=["tool", "ai"])`
followed by `str(m.content)`, as compress_research builds its raw notes. -/
def researcherRawContents (researcher_messages : List Message) : List String :=
  researcher_messages.filterMap fun m =>
    match m with
    | .tool .. => some m.content
    | .ai .. => some m.content
    | _ => none

/-- research_agent.compress_research: the compression model's response
(a parameter) becomes compressed_research; raw_notes is the single
"\n"-joined string of all tool and AI message contents, in transcript
order. -/
def compress_research (compressResponse : String) (researcher_messages : List Message) :
    ResearchResult :=
  { compressed_research := some compressResponse
  , raw_notes := some [joinLines (researcherRawContents researcher_messages)] }

/-- The researcher agent loop (llm_call → should_continue → tool_node →
llm_call … → compress_research): `decisions` supplies the successive
reasoning-step responses, `compress` the compression model.  Returns
`none` when the decision stream runs out mid-loop, `some` of the
compressed result and final transcript when Compressing is reached, and
`Except.error` when a tool call raises. -/
def runResearcher (invoke : ToolCall → Except String String)
    (compress : List Message → String) :
    List Message → List Message → Except String (Option (ResearchResult × List Message))
  | [], _msgs => .ok none
  | d :: ds, msgs =>
    let msgs1 := msgs ++ [d]
    if should_continue msgs1 == "tool_node" then
      match tool_node invoke msgs1 with
      | .error e => .error e
      | .ok tool_outputs => runResearcher invoke compress ds (msgs1 ++ tool_outputs)
    else
      .ok (some (compress_research (compress msgs1) msgs1, msgs1))

/-! ## Gather determinism -/

/-- A normally completed worker outcome. -/
def okOutcome (r : ResearchResult) : WorkerOutcome := Except.ok r

/-- The ToolMessage built for one ConductResearch result (content is the
compressed research, or the fixed placeholder when the key is absent). -/
def researchToolMessage (p : ResearchResult × ToolCall) : Message :=
  Message.tool (p.1.compressed_research.getD "Error synthesizing research report")
    p.2.name p.2.id

/-- The ToolMessage built for one think_tool call. -/
def thinkToolMessage (tc : ToolCall) : Message :=
  Message.tool (think_tool tc.reflection) tc.name tc.id

theorem find_map_key {α : Type} (f : Nat → α) (l : List Nat) (i : Nat) (hi : i ∈ l) :
    (l.map fun j => (j, f j)).find? (fun e => e.1 == i) = some (i, f i) := by
  induction l with
  | nil => cases hi
  | cons j t ih =>
    by_cases hj : j = i
    · subst hj
      rw [List.map_cons, List.find?_cons_of_pos]
      simp
    · rcases List.mem_cons.mp hi with h | h
      · exact absurd h.symm hj
      · rw [List.map_cons, List.find?_cons_of_neg, ih h]
        simp [hj]

theorem gatherEvents_map_ok (results : List ResearchResult) (sched : List Nat)
    (h : ∀ i ∈ sched, i < results.length) :
    gatherEvents (results.map okOutcome) sched
      = sched.map fun i => (i, okOutcome (results.getD i default)) := by
  induction sched with
  | nil => rfl
  | cons i t ih =>
    have hi : i < results.length := h i (List.mem_cons_self i t)
    have ht : ∀ j ∈ t, j < results.length := fun j hj => h j (List.mem_cons_of_mem i hj)
    have hget : (results.map okOutcome)[i]? = some (okOutcome (results.getD i default)) := by
      rw [List.getElem?_map, List.getElem?_eq_getElem hi, List.getD_eq_getElem results default hi]
      rfl
    have hsome : ((results.map okOutcome)[i]?).map (fun o => ((i, o) : Nat × WorkerOutcome))
        = some (i, okOutcome (results.getD i default)) := by
      rw [hget]
      rfl
    have ih2 := ih ht
    rw [gatherEvents] at ih2 ⊢
    rw [List.filterMap_cons, hsome, List.map_cons]
    exact congrArg _ ih2

theorem firstGatherError_map_ok (g : Nat → ResearchResult) (l : List Nat) :
    firstGatherError (l.map fun i => (i, okOutcome (g i))) = none := by
  induction l with
  | nil => rfl
  | cons i t ih =>
    rw [firstGatherError] at ih ⊢
    rw [List.map_cons, List.findSome?_cons]
    exact ih

theorem collectSlots_map_ok (g : Nat → ResearchResult) (sched : List Nat) (js : List Nat)
    (hsub : ∀ j ∈ js, j ∈ sched) :
    collectSlots (sched.map fun i => (i, okOutcome (g i))) js = some (js.map g) := by
  induction js with
  | nil => rfl
  | cons j t ih =>
    have hj : j ∈ sched := hsub j (List.mem_cons_self j t)
    have ht : ∀ x ∈ t, x ∈ sched := fun x hx => hsub x (List.mem_cons_of_mem j hx)
    have hfind := find_map_key (fun i => okOutcome (g i)) sched j hj
    rw [collectSlots, hfind, ih ht, List.map_cons]
    rfl

theorem getD_range_map (results : List ResearchResult) :
    (List.range results.length).map (fun j => results.getD j default) = results := by
  induction results with
  | nil => rfl
  | cons a t ih =>
    rw [List.length_cons, List.range_succ_eq_map, List.map_cons, List.map_map]
    show a :: (List.range t.length).map (fun j => t.getD j default) = a :: t
    rw [ih]

/-- asyncio.gather is deterministic in coroutine order: whatever
permutation the completion order is, when every worker succeeds the
returned list is the results in dispatch order. -/
theorem gatherOutcome_perm (results : List ResearchResult) (sched : List Nat)
    (hperm : sched.Perm (List.range results.length)) :
    gatherOutcome (results.map okOutcome) sched = Except.ok results := by
  have hmem : ∀ i ∈ sched, i < results.length := by
    intro i hi
    exact List.mem_range.mp (hperm.mem_iff.mp hi)
  have hev := gatherEvents_map_ok results sched hmem
  have hsub : ∀ j ∈ List.range results.length, j ∈ sched := fun j hj =>
    hperm.mem_iff.mpr hj
  have hcollect := collectSlots_map_ok (fun i => results.getD i default) sched
    (List.range results.length) hsub
  have hlen : (results.map okOutcome).length = results.length := List.length_map _ _
  simp only [gatherOutcome, hev, firstGatherError_map_ok, hlen, hcollect,
    getD_range_map]

/-! ## supervisor_tools branch behavior -/

/-- When an exit criterion holds (iteration budget reached, no tool
calls, or ResearchComplete), supervisor_tools routes to END with the
END-branch update and executes nothing. -/
theorem supervisor_tools_end_branch (work : Nat → String → WorkerOutcome)
    (sched : List Nat) (s : SupervisorState)
    (hend : (decide (s.research_iterations ≥ max_researcher_iterations)
        || (s.supervisor_messages.getLastD (Message.ai "" [])).toolCalls.isEmpty
        || ((s.supervisor_messages.getLastD (Message.ai "" [])).toolCalls.any
              fun tc => tc.name == "ResearchComplete")) = true) :
    supervisor_tools work sched s = (endUpdate s, true) := by
  simp only [supervisor_tools, hend, if_true]

/-- When no exit criterion holds and every dispatched worker completes
normally, supervisor_tools appends the think-tool observations followed
by one research ToolMessage per ConductResearch call (in request order),
appends one raw-note entry per worker, and loops back to the supervisor. -/
theorem supervisor_tools_ok_branch (work : Nat → String → WorkerOutcome)
    (sched : List Nat) (s : SupervisorState) (c : String) (tcs : List ToolCall)
    (results : List ResearchResult)
    (hlast : s.supervisor_messages.getLastD (Message.ai "" []) = Message.ai c tcs)
    (hiter : s.research_iterations < max_researcher_iterations)
    (hne : tcs.isEmpty = false)
    (hnc : (tcs.any fun tc => tc.name == "ResearchComplete") = false)
    (hga : gatherOutcome ((tcs.filter fun tc => tc.name == "ConductResearch").enum.map
        fun p => work p.1 p.2.researchTopic) sched = Except.ok results) :
    supervisor_tools work sched s =
      ({ s with
          supervisor_messages := s.supervisor_messages
            ++ ((tcs.filter fun tc => tc.name == "think_tool").map thinkToolMessage
                ++ (results.zip (tcs.filter fun tc => tc.name == "ConductResearch")).map
                    researchToolMessage)
          raw_notes := s.raw_notes
            ++ results.map fun r => joinLines (r.raw_notes.getD []) }, false) := by
  have hd : decide (s.research_iterations ≥ max_researcher_iterations) = false :=
    decide_eq_false (Nat.not_le.mpr hiter)
  simp only [supervisor_tools, hlast, Message.toolCalls, hd, hne, hnc, Bool.or_self,
    Bool.or_false, Bool.false_or, hga]
  rfl

/-- When no exit criterion holds but `asyncio.gather` re-raises a worker
exception, the `except` clause routes to END with the END-branch update:
the round's tool messages (including the already-computed think-tool
observations) are discarded. -/
theorem supervisor_tools_error_branch (work : Nat → String → WorkerOutcome)
    (sched : List Nat) (s : SupervisorState) (c : String) (tcs : List ToolCall)
    (e : String)
    (hlast : s.supervisor_messages.getLastD (Message.ai "" []) = Message.ai c tcs)
    (hiter : s.research_iterations < max_researcher_iterations)
    (hne : tcs.isEmpty = false)
    (hnc : (tcs.any fun tc => tc.name == "ResearchComplete") = false)
    (hga : gatherOutcome ((tcs.filter fun tc => tc.name == "ConductResearch").enum.map
        fun p => work p.1 p.2.researchTopic) sched = Except.error e) :
    supervisor_tools work sched s = (endUpdate s, true) := by
  have hd : decide (s.research_iterations ≥ max_researcher_iterations) = false :=
    decide_eq_false (Nat.not_le.mpr hiter)
  simp only [supervisor_tools, hlast, Message.toolCalls, hd, hne, hnc, Bool.or_self,
    Bool.or_false, Bool.false_or, hga]
  rfl

/-- Combination of `supervisor_tools_ok_branch` and `gatherOutcome_perm`:
the executed round's final state, for any completion order of the
workers. -/
theorem supervisor_tools_ok_of_perm
    (work : Nat → String → WorkerOutcome) (sched : List Nat) (s : SupervisorState)
    (c : String) (tcs : List ToolCall) (results : List ResearchResult)
    (hlast : s.supervisor_messages.getLastD (Message.ai "" []) = Message.ai c tcs)
    (hiter : s.research_iterations < max_researcher_iterations)
    (hne : tcs.isEmpty = false)
    (hnc : (tcs.any fun tc => tc.name == "ResearchComplete") = false)
    (hwork : (tcs.filter fun tc => tc.name == "ConductResearch").enum.map
        (fun p => work p.1 p.2.researchTopic) = results.map okOutcome)
    (hsched : sched.Perm
        (List.range (tcs.filter fun tc => tc.name == "ConductResearch").length)) :
    supervisor_tools work sched s =
      ({ s with
          supervisor_messages := s.supervisor_messages
            ++ ((tcs.filter fun tc => tc.name == "think_tool").map thinkToolMessage
                ++ (results.zip (tcs.filter fun tc => tc.name == "ConductResearch")).map
                    researchToolMessage)
          raw_notes := s.raw_notes
            ++ results.map fun r => joinLines (r.raw_notes.getD []) }, false) := by
  have hga : gatherOutcome ((tcs.filter fun tc => tc.name == "ConductResearch").enum.map
      fun p => work p.1 p.2.researchTopic) sched = Except.ok results := by
    have hlen : (tcs.filter fun tc => tc.name == "ConductResearch").length
        = results.length := by
      have h1 := congrArg List.length hwork
      simpa using h1
    rw [hwork]
    exact gatherOutcome_perm results sched (hlen ▸ hsched)
  exact supervisor_tools_ok_branch work sched s c tcs results hlast hiter hne hnc hga

/-- C1: in a Dispatching round that is executed (no exit criterion, no
worker exception), the supervisor appends exactly one result ToolMessage
per ConductResearch request of the latest decision, zipped one-to-one
with the requests in the order they were issued; the outcome is the same
for every completion order `sched` of the dispatched workers, since the
right-hand side does not mention `sched`. -/
theorem dispatch_appends_results_in_request_order
    (work : Nat → String → WorkerOutcome) (sched : List Nat) (s : SupervisorState)
    (c : String) (tcs : List ToolCall) (results : List ResearchResult)
    (hlast : s.supervisor_messages.getLastD (Message.ai "" []) = Message.ai c tcs)
    (hiter : s.research_iterations < max_researcher_iterations)
    (hne : tcs.isEmpty = false)
    (hnc : (tcs.any fun tc => tc.name == "ResearchComplete") = false)
    (hwork : (tcs.filter fun tc => tc.name == "ConductResearch").enum.map
        (fun p => work p.1 p.2.researchTopic) = results.map okOutcome)
    (hsched : sched.Perm
        (List.range (tcs.filter fun tc => tc.name == "ConductResearch").length)) :
    (supervisor_tools work sched s).2 = false
    ∧ (supervisor_tools work sched s).1.supervisor_messages
        = s.supervisor_messages
          ++ ((tcs.filter fun tc => tc.name == "think_tool").map thinkToolMessage
              ++ (results.zip (tcs.filter fun tc => tc.name == "ConductResearch")).map
                  researchToolMessage)
    ∧ ((results.zip (tcs.filter fun tc => tc.name == "ConductResearch")).map
          researchToolMessage).length
        = (tcs.filter fun tc => tc.name == "ConductResearch").length := by
  have hlen : (tcs.filter fun tc => tc.name == "ConductResearch").length
      = results.length := by
    have h1 := congrArg List.length hwork
    simpa using h1
  have hrun := supervisor_tools_ok_of_perm work sched s c tcs results hlast hiter hne hnc
    hwork hsched
  refine ⟨by rw [hrun], by rw [hrun], ?_⟩
  rw [List.length_map, List.length_zip, hlen, Nat.min_self]

/-- Witness for `dispatch_appends_results_in_request_order`: a concrete
two-delegation round whose workers complete in reversed order. -/
theorem dispatch_appends_results_witness :
    (let tcs := [ToolCall.mk "ConductResearch" "topic A" "" "call1",
                 ToolCall.mk "ConductResearch" "topic B" "" "call2"]
     let s : SupervisorState :=
       { supervisor_messages := [Message.human "brief", Message.ai "" tcs]
         research_iterations := 1 }
     let work : Nat → String → WorkerOutcome := fun _ t =>
       okOutcome { compressed_research := some ("findings on " ++ t)
                 , raw_notes := some ["raw " ++ t] }
     let results : List ResearchResult :=
       [{ compressed_research := some "findings on topic A", raw_notes := some ["raw topic A"] },
        { compressed_research := some "findings on topic B", raw_notes := some ["raw topic B"] }]
     (supervisor_tools work [1, 0] s).2 = false
     ∧ (supervisor_tools work [1, 0] s).1.supervisor_messages
         = s.supervisor_messages
           ++ ((tcs.filter fun tc => tc.name == "think_tool").map thinkToolMessage
               ++ (results.zip (tcs.filter fun tc => tc.name == "ConductResearch")).map
                   researchToolMessage)
     ∧ ((results.zip (tcs.filter fun tc => tc.name == "ConductResearch")).map
           researchToolMessage).length
         = (tcs.filter fun tc => tc.name == "ConductResearch").length) := by
  exact dispatch_appends_results_in_request_order _ [1, 0] _ "" _ _
    (by rfl) (by decide) (by rfl) (by rfl) (by rfl) (by decide)

/-- If some dispatched worker's coroutine raises, gather raises. -/
theorem gatherOutcome_error_of_mem (outs : List WorkerOutcome) (sched : List Nat)
    (j : Nat) (e : String)
    (hj : outs[j]? = some (Except.error e)) (hmem : j ∈ sched) :
    ∃ msg, gatherOutcome outs sched = Except.error msg := by
  have hevmem : ((j, Except.error e) : Nat × WorkerOutcome) ∈ gatherEvents outs sched := by
    rw [gatherEvents, List.mem_filterMap]
    exact ⟨j, hmem, by rw [hj]; rfl⟩
  cases hfe : firstGatherError (gatherEvents outs sched) with
  | none =>
    exfalso
    rw [firstGatherError, List.findSome?_eq_none_iff] at hfe
    exact absurd (hfe _ hevmem) (by simp)
  | some msg =>
    refine ⟨msg, ?_⟩
    simp only [gatherOutcome, hfe]

/-- C2, amended: a worker that raises an unhandled error makes
`asyncio.gather` re-raise; the supervisor's round-level `except` then
routes to END with only the previously accumulated notes.  The sibling
workers' results of that round are discarded (supervisor_messages is
unchanged) and no per-worker error placeholder is recorded. -/
theorem worker_failure_ends_round_discarding_siblings
    (work : Nat → String → WorkerOutcome) (sched : List Nat) (s : SupervisorState)
    (c : String) (tcs : List ToolCall) (j : Nat) (e : String)
    (hlast : s.supervisor_messages.getLastD (Message.ai "" []) = Message.ai c tcs)
    (hiter : s.research_iterations < max_researcher_iterations)
    (hne : tcs.isEmpty = false)
    (hnc : (tcs.any fun tc => tc.name == "ResearchComplete") = false)
    (hj : ((tcs.filter fun tc => tc.name == "ConductResearch").enum.map
        fun p => work p.1 p.2.researchTopic)[j]? = some (Except.error e))
    (hmem : j ∈ sched) :
    supervisor_tools work sched s = (endUpdate s, true)
    ∧ (supervisor_tools work sched s).1.supervisor_messages = s.supervisor_messages
    ∧ (supervisor_tools work sched s).1.notes
        = s.notes ++ get_notes_from_tool_calls s.supervisor_messages := by
  obtain ⟨msg, hga⟩ := gatherOutcome_error_of_mem _ sched j e hj hmem
  have hrun := supervisor_tools_error_branch work sched s c tcs msg hlast hiter hne hnc hga
  exact ⟨hrun, by rw [hrun]; rfl, by rw [hrun]; rfl⟩

/-- Witness for `worker_failure_ends_round_discarding_siblings`. -/
theorem worker_failure_ends_round_witness :
    (let tcs := [ToolCall.mk "ConductResearch" "topic A" "" "call1",
                 ToolCall.mk "ConductResearch" "topic B" "" "call2"]
     let s : SupervisorState :=
       { supervisor_messages := [Message.human "brief", Message.ai "" tcs]
         research_iterations := 1 }
     let work : Nat → String → WorkerOutcome := fun i _t =>
       if i == 0 then
         okOutcome { compressed_research := some "sibling findings"
                   , raw_notes := some ["sibling raw"] }
       else
         Except.error "worker crash"
     supervisor_tools work [1, 0] s = (endUpdate s, true)
     ∧ (supervisor_tools work [1, 0] s).1.supervisor_messages = s.supervisor_messages
     ∧ (supervisor_tools work [1, 0] s).1.notes
         = s.notes ++ get_notes_from_tool_calls s.supervisor_messages) := by
  exact worker_failure_ends_round_discarding_siblings _ [1, 0] _ "" _ 1 "worker crash"
    (by rfl) (by decide) (by rfl) (by rfl) (by rfl) (by decide)

/-- Counterexample to C2 as stated: with two delegations where worker 1
raises, the sibling worker 0's findings are not recorded anywhere in the
resulting state, no error-placeholder note exists for the failed slot,
and the round is abandoned (route = END) instead of continuing. -/
theorem worker_failure_counterexample :
    (let tcs := [ToolCall.mk "ConductResearch" "topic A" "" "call1",
                 ToolCall.mk "ConductResearch" "topic B" "" "call2"]
     let s : SupervisorState :=
       { supervisor_messages := [Message.human "brief", Message.ai "" tcs]
         research_iterations := 1 }
     let work : Nat → String → WorkerOutcome := fun i _t =>
       if i == 0 then
         okOutcome { compressed_research := some "sibling findings"
                   , raw_notes := some ["sibling raw"] }
       else
         Except.error "worker crash"
     let out := supervisor_tools work [0, 1] s
     out.2 = true
     ∧ out.1.supervisor_messages = s.supervisor_messages
     ∧ out.1.notes = []
     ∧ out.1.raw_notes = []) := by
  decide

/-- C10: a worker that completes but whose result mapping lacks the
compressed_research key yields the fixed placeholder string as that
delegation's ToolMessage content, a result lacking raw_notes contributes
the empty raw-note string, and the round continues normally (routes back
to the supervisor with the round's messages appended). -/
theorem missing_result_keys_use_placeholders
    (work : Nat → String → WorkerOutcome) (sched : List Nat) (s : SupervisorState)
    (c : String) (tcs : List ToolCall) (results : List ResearchResult)
    (j : Nat) (r : ResearchResult)
    (hlast : s.supervisor_messages.getLastD (Message.ai "" []) = Message.ai c tcs)
    (hiter : s.research_iterations < max_researcher_iterations)
    (hne : tcs.isEmpty = false)
    (hnc : (tcs.any fun tc => tc.name == "ResearchComplete") = false)
    (hwork : (tcs.filter fun tc => tc.name == "ConductResearch").enum.map
        (fun p => work p.1 p.2.researchTopic) = results.map okOutcome)
    (hsched : sched.Perm
        (List.range (tcs.filter fun tc => tc.name == "ConductResearch").length))
    (hj : results[j]? = some r)
    (hc : r.compressed_research = none)
    (hr : r.raw_notes = none) :
    (supervisor_tools work sched s).2 = false
    ∧ (supervisor_tools work sched s).1.supervisor_messages
        = s.supervisor_messages
          ++ ((tcs.filter fun tc => tc.name == "think_tool").map thinkToolMessage
              ++ (results.zip (tcs.filter fun tc => tc.name == "ConductResearch")).map
                  researchToolMessage)
    ∧ (∃ tc, (tcs.filter fun tc => tc.name == "ConductResearch")[j]? = some tc
        ∧ ((results.zip (tcs.filter fun tc => tc.name == "ConductResearch")).map
              researchToolMessage)[j]?
            = some (Message.tool "Error synthesizing research report" tc.name tc.id))
    ∧ ((supervisor_tools work sched s).1.raw_notes
        = s.raw_notes ++ results.map fun r2 => joinLines (r2.raw_notes.getD []))
    ∧ (results.map fun r2 => joinLines (r2.raw_notes.getD []))[j]? = some "" := by
  have hlen : (tcs.filter fun tc => tc.name == "ConductResearch").length
      = results.length := by
    have h1 := congrArg List.length hwork
    simpa using h1
  have hjlt : j < results.length := by
    by_contra hlt
    rw [List.getElem?_eq_none (Nat.le_of_not_lt hlt)] at hj
    cases hj
  have hjc : j < (tcs.filter fun tc => tc.name == "ConductResearch").length :=
    hlen ▸ hjlt
  have hrun := supervisor_tools_ok_of_perm work sched s c tcs results hlast hiter hne hnc
    hwork hsched
  refine ⟨by rw [hrun], by rw [hrun], ?_, by rw [hrun], ?_⟩
  · refine ⟨(tcs.filter fun tc => tc.name == "ConductResearch")[j], ?_, ?_⟩
    · exact List.getElem?_eq_getElem hjc
    · rw [List.getElem?_map]
      have hz : (results.zip (tcs.filter fun tc => tc.name == "ConductResearch"))[j]?
          = some (r, (tcs.filter fun tc => tc.name == "ConductResearch")[j]) :=
        List.getElem?_zip_eq_some.mpr ⟨hj, List.getElem?_eq_getElem hjc⟩
      rw [hz]
      simp [researchToolMessage, hc]
  · rw [List.getElem?_map, hj]
    simp [hr, joinLines]

/-- Witness for `missing_result_keys_use_placeholders`: one delegation
whose worker returns an empty mapping. -/
theorem missing_result_keys_witness :
    (let tcs := [ToolCall.mk "ConductResearch" "topic A" "" "call1"]
     let s : SupervisorState :=
       { supervisor_messages := [Message.human "brief", Message.ai "" tcs]
         research_iterations := 1 }
     let work : Nat → String → WorkerOutcome := fun _ _ =>
       okOutcome { compressed_research := none, raw_notes := none }
     let results : List ResearchResult := [{ compressed_research := none, raw_notes := none }]
     (supervisor_tools work [0] s).2 = false
     ∧ (supervisor_tools work [0] s).1.supervisor_messages
         = s.supervisor_messages
           ++ ((tcs.filter fun tc => tc.name == "think_tool").map thinkToolMessage
               ++ (results.zip (tcs.filter fun tc => tc.name == "ConductResearch")).map
                   researchToolMessage)
     ∧ (∃ tc, (tcs.filter fun tc => tc.name == "ConductResearch")[0]? = some tc
         ∧ ((results.zip (tcs.filter fun tc => tc.name == "ConductResearch")).map
               researchToolMessage)[0]?
             = some (Message.tool "Error synthesizing research report" tc.name tc.id))
     ∧ ((supervisor_tools work [0] s).1.raw_notes
         = s.raw_notes ++ results.map fun r2 => joinLines (r2.raw_notes.getD []))
     ∧ (results.map fun r2 => joinLines (r2.raw_notes.getD []))[0]? = some "") := by
  exact missing_result_keys_use_placeholders _ [0] _ "" _ _ 0
    { compressed_research := none, raw_notes := none }
    (by rfl) (by decide) (by rfl) (by rfl) (by rfl) (by decide) (by rfl) (by rfl) (by rfl)

/-! ## Iteration counter invariants -/

/-- supervisor_tools never changes the iteration counter: only the
supervisor node writes research_iterations. -/
theorem supervisor_tools_iterations (work : Nat → String → WorkerOutcome)
    (sched : List Nat) (s : SupervisorState) :
    (supervisor_tools work sched s).1.research_iterations = s.research_iterations := by
  simp only [supervisor_tools]
  split
  · rfl
  · split
    · rfl
    · rfl

/-- If supervisor_tools routes back to the supervisor, the iteration
budget had not been reached at the check. -/
theorem supervisor_tools_continue_lt (work : Nat → String → WorkerOutcome)
    (sched : List Nat) (s : SupervisorState)
    (h : (supervisor_tools work sched s).2 = false) :
    s.research_iterations < max_researcher_iterations := by
  by_contra hge
  have hd : decide (s.research_iterations ≥ max_researcher_iterations) = true :=
    decide_eq_true (Nat.le_of_not_lt hge)
  have hend := supervisor_tools_end_branch work sched s (by rw [hd]; rfl)
  rw [hend] at h
  cases h

/-- From any state below the iteration budget, every state the loop
passes through stays at or below the budget. -/
theorem runRoundsTrace_le (rounds : List Round) :
    ∀ s : SupervisorState, s.research_iterations < max_researcher_iterations →
      ∀ t ∈ runRoundsTrace rounds s,
        t.research_iterations ≤ max_researcher_iterations := by
  induction rounds with
  | nil =>
    intro s hs t ht
    rw [runRoundsTrace, List.mem_singleton] at ht
    exact ht ▸ Nat.le_of_lt hs
  | cons r rs ih =>
    intro s hs t ht
    rw [runRoundsTrace] at ht
    have hs1 : (supervisor r.decision s).research_iterations = s.research_iterations + 1 :=
      rfl
    cases hstep : supervisor_tools r.work r.sched (supervisor r.decision s) with
    | mk s2 ended =>
      have hs2 : s2.research_iterations = s.research_iterations + 1 := by
        have := supervisor_tools_iterations r.work r.sched (supervisor r.decision s)
        rw [hstep] at this
        exact this
      cases ended with
      | true =>
        rw [hstep] at ht
        rcases List.mem_cons.mp ht with h | h
        · exact h ▸ Nat.le_of_lt hs
        rcases List.mem_cons.mp h with h2 | h2
        · rw [h2, hs1]
          exact Nat.succ_le_of_lt hs
        rw [List.mem_singleton] at h2
        rw [h2, hs2]
        exact Nat.succ_le_of_lt hs
      | false =>
        rw [hstep] at ht
        rcases List.mem_cons.mp ht with h | h
        · exact h ▸ Nat.le_of_lt hs
        rcases List.mem_cons.mp h with h2 | h2
        · rw [h2, hs1]
          exact Nat.succ_le_of_lt hs
        have hlt : (supervisor r.decision s).research_iterations
            < max_researcher_iterations := by
          apply supervisor_tools_continue_lt r.work r.sched
          rw [hstep]
        have hlt2 : s2.research_iterations < max_researcher_iterations := by
          rw [hs2, ← hs1]
          exact hlt
        exact ih s2 hlt2 t h2

/-- C4: the iteration counter increases by exactly one per supervisor
decision turn, is never decreased by supervisor_tools, never exceeds
max_researcher_iterations along any run started at zero, and once the
counter has reached the maximum at the termination check the supervisor
routes to END with the pending tool calls unexecuted (supervisor
messages unchanged) and notes extracted from prior rounds only. -/
theorem iteration_counter_monotone_and_bounded
    (rounds : List Round) (s0 : SupervisorState)
    (h0 : s0.research_iterations = 0) :
    (∀ (resp : Message) (s : SupervisorState),
        (supervisor resp s).research_iterations = s.research_iterations + 1)
    ∧ (∀ (work : Nat → String → WorkerOutcome) (sched : List Nat) (s : SupervisorState),
        (supervisor_tools work sched s).1.research_iterations = s.research_iterations)
    ∧ (∀ t ∈ runRoundsTrace rounds s0,
        t.research_iterations ≤ max_researcher_iterations)
    ∧ (∀ (work : Nat → String → WorkerOutcome) (sched : List Nat) (s : SupervisorState),
        s.research_iterations ≥ max_researcher_iterations →
          supervisor_tools work sched s = (endUpdate s, true)
          ∧ (supervisor_tools work sched s).1.supervisor_messages = s.supervisor_messages
          ∧ (supervisor_tools work sched s).1.notes
              = s.notes ++ get_notes_from_tool_calls s.supervisor_messages) := by
  refine ⟨fun resp s => rfl, supervisor_tools_iterations, ?_, ?_⟩
  · apply runRoundsTrace_le rounds s0
    rw [h0]
    decide
  · intro work sched s hge
    have hd : decide (s.research_iterations ≥ max_researcher_iterations) = true :=
      decide_eq_true hge
    have hend := supervisor_tools_end_branch work sched s (by rw [hd]; rfl)
    exact ⟨hend, by rw [hend]; rfl, by rw [hend]; rfl⟩

/-- Witness for `iteration_counter_monotone_and_bounded`: a concrete
two-round run from a fresh state. -/
theorem iteration_counter_witness :
    (let r1 : Round :=
       { decision := Message.ai "" [ToolCall.mk "ConductResearch" "t" "" "c1"]
         sched := [0]
         work := fun _ _ => okOutcome { compressed_research := some "f", raw_notes := some ["r"] } }
     let r2 : Round :=
       { decision := Message.ai "" [ToolCall.mk "ResearchComplete" "" "" "c2"]
         sched := []
         work := fun _ _ => okOutcome {} }
     let s0 : SupervisorState := { supervisor_messages := [Message.human "brief"] }
     s0.research_iterations = 0
     ∧ ((∀ (resp : Message) (s : SupervisorState),
           (supervisor resp s).research_iterations = s.research_iterations + 1)
        ∧ (∀ (work : Nat → String → WorkerOutcome) (sched : List Nat) (s : SupervisorState),
            (supervisor_tools work sched s).1.research_iterations = s.research_iterations)
        ∧ (∀ t ∈ runRoundsTrace [r1, r2] s0,
            t.research_iterations ≤ max_researcher_iterations)
        ∧ (∀ (work : Nat → String → WorkerOutcome) (sched : List Nat) (s : SupervisorState),
            s.research_iterations ≥ max_researcher_iterations →
              supervisor_tools work sched s = (endUpdate s, true)
              ∧ (supervisor_tools work sched s).1.supervisor_messages = s.supervisor_messages
              ∧ (supervisor_tools work sched s).1.notes
                  = s.notes ++ get_notes_from_tool_calls s.supervisor_messages))) := by
  exact ⟨rfl, iteration_counter_monotone_and_bounded _ _ rfl⟩

/-! ## Notes aggregation -/

theorem get_notes_append (l1 l2 : List Message) :
    get_notes_from_tool_calls (l1 ++ l2)
      = get_notes_from_tool_calls l1 ++ get_notes_from_tool_calls l2 :=
  List.filterMap_append l1 l2 _

theorem get_notes_ai (c : String) (tcs : List ToolCall) :
    get_notes_from_tool_calls [Message.ai c tcs] = [] := rfl

theorem get_notes_map_think (ts : List ToolCall) :
    get_notes_from_tool_calls (ts.map thinkToolMessage)
      = ts.map fun tc => think_tool tc.reflection := by
  induction ts with
  | nil => rfl
  | cons t rest ih =>
    simp only [List.map_cons, get_notes_from_tool_calls, List.filterMap_cons,
      thinkToolMessage] at ih ⊢
    rw [ih]

theorem get_notes_map_research (ps : List (ResearchResult × ToolCall)) :
    get_notes_from_tool_calls (ps.map researchToolMessage)
      = ps.map fun p => p.1.compressed_research.getD "Error synthesizing research report" := by
  induction ps with
  | nil => rfl
  | cons p rest ih =>
    simp only [List.map_cons, get_notes_from_tool_calls, List.filterMap_cons,
      researchToolMessage] at ih ⊢
    rw [ih]

/-- C5, amended: an unhandled worker error during a Dispatching round is
caught by the round-level except and forces the run to END carrying the
notes accumulated so far — but that notes collection is exactly the notes
of the prior rounds and can be empty: no "insufficient findings" marker
is substituted anywhere in the engine. -/
theorem dispatch_error_terminates_run_with_accumulated_notes
    (r : Round) (rest : List Round) (s : SupervisorState)
    (c : String) (tcs : List ToolCall) (j : Nat) (e : String)
    (hdec : r.decision = Message.ai c tcs)
    (hiter : s.research_iterations + 1 < max_researcher_iterations)
    (hne : tcs.isEmpty = false)
    (hnc : (tcs.any fun tc => tc.name == "ResearchComplete") = false)
    (hj : ((tcs.filter fun tc => tc.name == "ConductResearch").enum.map
        fun p => r.work p.1 p.2.researchTopic)[j]? = some (Except.error e))
    (hmem : j ∈ r.sched) :
    runRounds (r :: rest) s = endUpdate (supervisor r.decision s)
    ∧ (runRounds (r :: rest) s).notes
        = s.notes ++ get_notes_from_tool_calls s.supervisor_messages := by
  have hlast : (supervisor r.decision s).supervisor_messages.getLastD (Message.ai "" [])
      = Message.ai c tcs := by
    show (s.supervisor_messages ++ [r.decision]).getLastD (Message.ai "" []) = _
    rw [List.getLastD_concat, hdec]
  obtain ⟨msg, hga⟩ := gatherOutcome_error_of_mem _ r.sched j e hj hmem
  have hrun := supervisor_tools_error_branch r.work r.sched (supervisor r.decision s)
    c tcs msg hlast hiter hne hnc hga
  have hfinal : runRounds (r :: rest) s = endUpdate (supervisor r.decision s) := by
    rw [runRounds, hrun]
  refine ⟨hfinal, ?_⟩
  rw [hfinal]
  show (supervisor r.decision s).notes
      ++ get_notes_from_tool_calls (supervisor r.decision s).supervisor_messages = _
  show s.notes ++ get_notes_from_tool_calls (s.supervisor_messages ++ [r.decision]) = _
  rw [get_notes_append, hdec, get_notes_ai, List.append_nil]

/-- Witness for `dispatch_error_terminates_run_with_accumulated_notes`. -/
theorem dispatch_error_terminates_run_witness :
    (let r : Round :=
       { decision := Message.ai "" [ToolCall.mk "ConductResearch" "t" "" "c1"]
         sched := [0]
         work := fun _ _ => Except.error "network down" }
     let s : SupervisorState := { supervisor_messages := [Message.human "brief"] }
     runRounds [r] s = endUpdate (supervisor r.decision s)
     ∧ (runRounds [r] s).notes
         = s.notes ++ get_notes_from_tool_calls s.supervisor_messages) := by
  exact dispatch_error_terminates_run_with_accumulated_notes _ [] _ ""
    [ToolCall.mk "ConductResearch" "t" "" "c1"] 0 "network down"
    (by rfl) (by decide) (by rfl) (by rfl) (by rfl) (by decide)

/-- Counterexample to C5 as stated: a run whose only round has its single
worker raise ends with a well-formed but empty notes collection — no
non-empty "insufficient findings" marker is substituted. -/
theorem empty_notes_counterexample :
    (let r : Round :=
       { decision := Message.ai "" [ToolCall.mk "ConductResearch" "t" "" "c1"]
         sched := [0]
         work := fun _ _ => Except.error "network down" }
     let s : SupervisorState := { supervisor_messages := [Message.human "brief"] }
     (runRounds [r] s).notes = []) := by
  decide

/-- C6, amended: the final notes collection is the content of every
ToolMessage in the supervisor trace, which after an executed round means
the prior notes, then one "Reflection recorded: …" entry per think_tool
call, then one compressed-findings entry (or error placeholder) per
dispatched worker — supervisor think reflections are included, not
excluded. -/
theorem notes_collect_all_tool_message_contents
    (work : Nat → String → WorkerOutcome) (sched : List Nat) (s : SupervisorState)
    (c : String) (tcs : List ToolCall) (results : List ResearchResult)
    (hlast : s.supervisor_messages.getLastD (Message.ai "" []) = Message.ai c tcs)
    (hiter : s.research_iterations < max_researcher_iterations)
    (hne : tcs.isEmpty = false)
    (hnc : (tcs.any fun tc => tc.name == "ResearchComplete") = false)
    (hwork : (tcs.filter fun tc => tc.name == "ConductResearch").enum.map
        (fun p => work p.1 p.2.researchTopic) = results.map okOutcome)
    (hsched : sched.Perm
        (List.range (tcs.filter fun tc => tc.name == "ConductResearch").length)) :
    get_notes_from_tool_calls (supervisor_tools work sched s).1.supervisor_messages
      = get_notes_from_tool_calls s.supervisor_messages
        ++ ((tcs.filter fun tc => tc.name == "think_tool").map
              (fun tc => think_tool tc.reflection)
            ++ results.map
                (fun res => res.compressed_research.getD "Error synthesizing research report")) := by
  have hlen : (tcs.filter fun tc => tc.name == "ConductResearch").length
      = results.length := by
    have h1 := congrArg List.length hwork
    simpa using h1
  have hrun := supervisor_tools_ok_of_perm work sched s c tcs results hlast hiter hne hnc
    hwork hsched
  rw [hrun]
  show get_notes_from_tool_calls (s.supervisor_messages ++ _) = _
  rw [get_notes_append, get_notes_append, get_notes_map_think, get_notes_map_research]
  have hzip : (results.zip (tcs.filter fun tc => tc.name == "ConductResearch")).map
      (fun p => p.1.compressed_research.getD "Error synthesizing research report")
      = results.map
          (fun res => res.compressed_research.getD "Error synthesizing research report") := by
    have hfst : (results.zip (tcs.filter fun tc => tc.name == "ConductResearch")).map
        Prod.fst = results :=
      List.map_fst_zip _ _ (Nat.le_of_eq hlen.symm)
    calc (results.zip (tcs.filter fun tc => tc.name == "ConductResearch")).map
          (fun p => p.1.compressed_research.getD "Error synthesizing research report")
        = ((results.zip (tcs.filter fun tc => tc.name == "ConductResearch")).map
            Prod.fst).map
              (fun res => res.compressed_research.getD "Error synthesizing research report") := by
          rw [List.map_map]
          rfl
      _ = results.map
            (fun res => res.compressed_research.getD "Error synthesizing research report") := by
          rw [hfst]
  rw [hzip]

/-- Witness for `notes_collect_all_tool_message_contents`: a round with
one think reflection and one delegation. -/
theorem notes_collect_all_witness :
    (let tcs := [ToolCall.mk "think_tool" "" "plan the search" "call0",
                 ToolCall.mk "ConductResearch" "topic A" "" "call1"]
     let s : SupervisorState :=
       { supervisor_messages := [Message.human "brief", Message.ai "" tcs]
         research_iterations := 1 }
     let work : Nat → String → WorkerOutcome := fun _ _ =>
       okOutcome { compressed_research := some "worker findings", raw_notes := some ["raw"] }
     let results : List ResearchResult :=
       [{ compressed_research := some "worker findings", raw_notes := some ["raw"] }]
     get_notes_from_tool_calls (supervisor_tools work [0] s).1.supervisor_messages
       = get_notes_from_tool_calls s.supervisor_messages
         ++ ((tcs.filter fun tc => tc.name == "think_tool").map
               (fun tc => think_tool tc.reflection)
             ++ results.map
                 (fun res => res.compressed_research.getD "Error synthesizing research report"))) := by
  exact notes_collect_all_tool_message_contents _ [0] _ "" _ _
    (by rfl) (by decide) (by rfl) (by rfl) (by rfl) (by decide)

/-- Counterexample to C6 as stated: after a round with one think_tool
call and one delegation, followed by a ResearchComplete turn, the final
notes collection contains the supervisor-internal think reflection
confirmation alongside the worker's compressed findings. -/
theorem notes_contain_think_reflection_counterexample :
    (let tcs := [ToolCall.mk "think_tool" "" "plan the search" "call0",
                 ToolCall.mk "ConductResearch" "topic A" "" "call1"]
     let r1 : Round :=
       { decision := Message.ai "" tcs
         sched := [0]
         work := fun _ _ =>
           okOutcome { compressed_research := some "worker findings"
                     , raw_notes := some ["raw"] } }
     let r2 : Round :=
       { decision := Message.ai "" [ToolCall.mk "ResearchComplete" "" "" "call2"]
         sched := []
         work := fun _ _ => okOutcome {} }
     let s : SupervisorState := { supervisor_messages := [Message.human "brief"] }
     (runRounds [r1, r2] s).notes
       = ["Reflection recorded: plan the search", "worker findings"]) := by
  decide

/-! ## Raw-note preservation -/

/-- `a` occurs verbatim inside `b` (substring at the character level). -/
def substringOf (a b : String) : Prop := a.data <:+: b.data

theorem substringOf_joinLines (x : String) (l : List String) (hx : x ∈ l) :
    substringOf x (joinLines l) := by
  induction l with
  | nil => cases hx
  | cons a rest ih =>
    cases rest with
    | nil =>
      have hxa : x = a := by simpa using hx
      subst hxa
      exact ⟨[], [], by simp [joinLines]⟩
    | cons b r2 =>
      rcases List.mem_cons.mp hx with h | h
      · subst h
        refine ⟨[], ("\n" ++ joinLines (b :: r2)).data, ?_⟩
        simp [joinLines]
      · obtain ⟨u, v, huv⟩ := ih h
        refine ⟨(a ++ "\n").data ++ u, v, ?_⟩
        rw [joinLines]
        simp only [String.data_append, List.append_assoc]
        simp only [List.append_assoc] at huv
        rw [huv]

/-- C7: every tool result recorded in a worker's transcript appears
verbatim (as a substring) in the single raw-notes string that worker's
Compressing step returns, and the supervisor preserves exactly one
raw-note entry per dispatched worker of an executed round. -/
theorem tool_results_preserved_in_raw_notes
    (compressResponse : String) (msgs : List Message) (tc tn ti : String)
    (work : Nat → String → WorkerOutcome) (sched : List Nat) (s : SupervisorState)
    (c : String) (tcs : List ToolCall) (results : List ResearchResult)
    (hm : Message.tool tc tn ti ∈ msgs)
    (hlast : s.supervisor_messages.getLastD (Message.ai "" []) = Message.ai c tcs)
    (hiter : s.research_iterations < max_researcher_iterations)
    (hne : tcs.isEmpty = false)
    (hnc : (tcs.any fun x => x.name == "ResearchComplete") = false)
    (hwork : (tcs.filter fun x => x.name == "ConductResearch").enum.map
        (fun p => work p.1 p.2.researchTopic) = results.map okOutcome)
    (hsched : sched.Perm
        (List.range (tcs.filter fun x => x.name == "ConductResearch").length)) :
    (∃ raw, (compress_research compressResponse msgs).raw_notes = some [raw]
        ∧ substringOf tc raw)
    ∧ (supervisor_tools work sched s).1.raw_notes
        = s.raw_notes ++ results.map (fun r => joinLines (r.raw_notes.getD []))
    ∧ (results.map (fun r => joinLines (r.raw_notes.getD []))).length
        = (tcs.filter fun x => x.name == "ConductResearch").length := by
  have hlen : (tcs.filter fun x => x.name == "ConductResearch").length
      = results.length := by
    have h1 := congrArg List.length hwork
    simpa using h1
  have hrun := supervisor_tools_ok_of_perm work sched s c tcs results hlast hiter hne hnc
    hwork hsched
  refine ⟨?_, by rw [hrun], by rw [List.length_map, hlen]⟩
  refine ⟨joinLines (researcherRawContents msgs), rfl, ?_⟩
  apply substringOf_joinLines
  rw [researcherRawContents, List.mem_filterMap]
  exact ⟨Message.tool tc tn ti, hm, rfl⟩

/-- Witness for `tool_results_preserved_in_raw_notes`. -/
theorem tool_results_preserved_witness :
    (let msgs := [Message.human "task", Message.ai "thinking" [],
                  Message.tool "obs one" "tavily_search" "id1",
                  Message.tool "obs two" "statute_search" "id2"]
     let tcs := [ToolCall.mk "ConductResearch" "topic A" "" "call1"]
     let s : SupervisorState :=
       { supervisor_messages := [Message.human "brief", Message.ai "" tcs]
         research_iterations := 1 }
     let work : Nat → String → WorkerOutcome := fun _ _ =>
       okOutcome { compressed_research := some "findings", raw_notes := some ["raw"] }
     let results : List ResearchResult :=
       [{ compressed_research := some "findings", raw_notes := some ["raw"] }]
     (∃ raw, (compress_research "report" msgs).raw_notes = some [raw]
         ∧ substringOf "obs two" raw)
     ∧ (supervisor_tools work [0] s).1.raw_notes
         = s.raw_notes ++ results.map (fun r => joinLines (r.raw_notes.getD []))
     ∧ (results.map (fun r => joinLines (r.raw_notes.getD []))).length
         = (tcs.filter fun x => x.name == "ConductResearch").length) := by
  exact tool_results_preserved_in_raw_notes "report" _ "obs two" "statute_search" "id2"
    _ [0] _ "" _ _ (by decide) (by rfl) (by decide) (by rfl) (by rfl) (by rfl) (by decide)

/-! ## Worker loop: advisory budget and tool failures -/

theorem mapM_invoke_ok (invoke : ToolCall → Except String String) (l : List ToolCall)
    (hok : ∀ x ∈ l, ∃ o, invoke x = Except.ok o) :
    ∃ os, l.mapM invoke = Except.ok os := by
  induction l with
  | nil => exact ⟨[], rfl⟩
  | cons a t ih =>
    obtain ⟨o, ho⟩ := hok a (List.mem_cons_self a t)
    obtain ⟨os, hos⟩ := ih fun x hx => hok x (List.mem_cons_of_mem a hx)
    refine ⟨o :: os, ?_⟩
    rw [List.mapM_cons, ho, hos]
    rfl

theorem mapM_invoke_error (invoke : ToolCall → Except String String) (l : List ToolCall)
    (x : ToolCall) (e : String) (hx : x ∈ l) (hfail : invoke x = Except.error e) :
    ∃ e2, l.mapM invoke = Except.error e2 := by
  induction l with
  | nil => cases hx
  | cons a t ih =>
    rcases List.mem_cons.mp hx with h | h
    · subst h
      refine ⟨e, ?_⟩
      rw [List.mapM_cons, hfail]
      rfl
    · cases ha : invoke a with
      | error e3 =>
        refine ⟨e3, ?_⟩
        rw [List.mapM_cons, ha]
        rfl
      | ok o =>
        obtain ⟨e2, h2⟩ := ih h
        refine ⟨e2, ?_⟩
        rw [List.mapM_cons, ha, h2]
        rfl

theorem should_continue_concat (msgs : List Message) (d : Message) :
    should_continue (msgs ++ [d])
      = if d.toolCalls.isEmpty then "compress_research" else "tool_node" := by
  rw [should_continue, List.getLastD_concat]

/-- C9: the per-worker tool-call budget is advisory only — the loop has
no counter or ceiling.  Routing depends only on whether the latest
reasoning response requested tool calls, and for every length of
tool-calling prefix (with succeeding tools), the run executes all of it
and reaches Compressing exactly when a response makes no tool calls. -/
theorem tool_call_budget_is_advisory
    (invoke : ToolCall → Except String String) (compress : List Message → String)
    (front : List Message) (dlast : Message) (msgs : List Message)
    (hfront : ∀ d ∈ front, d.toolCalls ≠ [])
    (hlastd : dlast.toolCalls = [])
    (hok : ∀ x : ToolCall, ∃ o, invoke x = Except.ok o) :
    (∀ ms : List Message, should_continue ms = "tool_node"
        ↔ (ms.getLastD (Message.ai "" [])).toolCalls ≠ [])
    ∧ (∃ res final, runResearcher invoke compress (front ++ [dlast]) msgs
        = Except.ok (some (res, final))) := by
  constructor
  · intro ms
    rw [should_continue]
    cases hcase : (ms.getLastD (Message.ai "" [])).toolCalls with
    | nil => simp
    | cons a t => simp
  · induction front generalizing msgs with
    | nil =>
      have hsc : should_continue (msgs ++ [dlast]) = "compress_research" := by
        rw [should_continue_concat, hlastd]
        rfl
      rw [List.nil_append, runResearcher, hsc]
      exact ⟨_, _, rfl⟩
    | cons d front2 ih =>
      have hdne : d.toolCalls ≠ [] := hfront d (List.mem_cons_self d front2)
      have hfront2 : ∀ x ∈ front2, x.toolCalls ≠ [] := fun x hx =>
        hfront x (List.mem_cons_of_mem d hx)
      have hsc : should_continue (msgs ++ [d]) = "tool_node" := by
        rw [should_continue_concat]
        cases hcase : d.toolCalls with
        | nil => exact absurd hcase hdne
        | cons a t => rfl
      obtain ⟨os, hos⟩ := mapM_invoke_ok invoke d.toolCalls fun x _ => hok x
      have htn : tool_node invoke (msgs ++ [d])
          = Except.ok ((os.zip d.toolCalls).map fun p =>
              Message.tool p.1 p.2.name p.2.id) := by
        rw [tool_node, List.getLastD_concat, hos]
        rfl
      rw [List.cons_append, runResearcher, hsc]
      rw [htn]
      simp only [beq_self_eq_true, if_true]
      exact ih _ hfront2

/-- Witness for `tool_call_budget_is_advisory`: seven consecutive
tool-calling turns — beyond both the 2–3 and the 5-call guidance — then
a turn with no calls. -/
theorem tool_call_budget_witness :
    (let turn : Message := Message.ai "" [ToolCall.mk "tavily_search" "" "" "id"]
     let front := List.replicate 7 turn
     let dlast : Message := Message.ai "final answer" []
     let invoke : ToolCall → Except String String := fun _ => Except.ok "obs"
     let compress : List Message → String := fun _ => "report"
     (∀ ms : List Message, should_continue ms = "tool_node"
         ↔ (ms.getLastD (Message.ai "" [])).toolCalls ≠ [])
     ∧ (∃ res final, runResearcher invoke compress (front ++ [dlast]) []
         = Except.ok (some (res, final)))) := by
  exact tool_call_budget_is_advisory _ _ _ _ []
    (by decide) (by rfl) (fun x => ⟨"obs", rfl⟩)

/-- C3, amended: a capability failure is not converted into a string
observation — tavily_search propagates the client's exception, tool_node
re-raises it, and the worker's run aborts before Compressing (the error
surfaces at the supervisor's round-level handler instead). -/
theorem failed_capability_aborts_worker
    (clientSearch : String → Except String SearchResponse) (summarize : String → String)
    (q e : String)
    (invoke : ToolCall → Except String String) (compress : List Message → String)
    (d : Message) (ds : List Message) (msgs : List Message) (x : ToolCall) (e2 : String)
    (hq : clientSearch q = Except.error e)
    (hx : x ∈ d.toolCalls)
    (hfail : invoke x = Except.error e2) :
    tavily_search clientSearch summarize q = Except.error e
    ∧ (∃ e3, tool_node invoke (msgs ++ [d]) = Except.error e3)
    ∧ (∃ e4, runResearcher invoke compress (d :: ds) msgs = Except.error e4) := by
  have hdne : d.toolCalls ≠ [] := fun hnil => by
    rw [hnil] at hx
    cases hx
  have hsc : should_continue (msgs ++ [d]) = "tool_node" := by
    rw [should_continue_concat]
    cases hcase : d.toolCalls with
    | nil => exact absurd hcase hdne
    | cons a t => rfl
  obtain ⟨e3, hmap⟩ := mapM_invoke_error invoke d.toolCalls x e2 hx hfail
  have htn : tool_node invoke (msgs ++ [d]) = Except.error e3 := by
    rw [tool_node, List.getLastD_concat, hmap]
    rfl
  refine ⟨?_, ⟨e3, htn⟩, ⟨e3, ?_⟩⟩
  · rw [tavily_search, tavily_search_multiple, List.mapM_cons, hq]
    rfl
  · rw [runResearcher, hsc]
    rw [htn]
    rfl

/-- Witness for `failed_capability_aborts_worker`. -/
theorem failed_capability_aborts_worker_witness :
    (let d : Message := Message.ai "plan"
       [ToolCall.mk "tavily_search" "" "" "id1", ToolCall.mk "tavily_search" "" "" "id2"]
     let invoke : ToolCall → Except String String := fun tc =>
       if tc.id == "id1" then Except.ok "obs1" else Except.error "network error"
     let compress : List Message → String := fun _ => "report"
     let clientSearch : String → Except String SearchResponse := fun _ =>
       Except.error "network error"
     tavily_search clientSearch (fun s => s) "query" = Except.error "network error"
     ∧ (∃ e3, tool_node invoke ([Message.human "task"] ++ [d]) = Except.error e3)
     ∧ (∃ e4, runResearcher invoke compress [d] [Message.human "task"]
         = Except.error e4)) := by
  exact failed_capability_aborts_worker _ _ "query" "network error" _ _ _ [] _
    (ToolCall.mk "tavily_search" "" "" "id2") "network error"
    (by rfl) (by decide) (by rfl)

/-- Counterexample to C3 as stated: the worker's second requested tool
call raises a network error; the loop does not append an
error-observation and does not reach Compressing — the whole run raises
instead of using the other successful call. -/
theorem failed_tool_call_crashes_worker_counterexample :
    (let d : Message := Message.ai "plan"
       [ToolCall.mk "tavily_search" "" "" "id1", ToolCall.mk "tavily_search" "" "" "id2"]
     let invoke : ToolCall → Except String String := fun tc =>
       if tc.id == "id1" then Except.ok "obs1" else Except.error "network error"
     let compress : List Message → String := fun _ => "report"
     runResearcher invoke compress [d] [Message.human "task"]
       = Except.error "network error") := by
  rfl

end LawDeepResearch
